import Mathlib

set_option maxHeartbeats 1000000

/-!
Verification development for the daylight-coefficient core of
SIMPLE-BuildingSimulation/solar_model (src/src/daylight_coefficients.rs).

The recursive stochastic path tracer is embedded shallowly: floats become
exact rationals, external collaborators (scene, materials, sky binner,
hemisphere sampler, random source) become explicit data, and the mutable
spectrum shared through `Arc<Mutex<...>>` becomes explicit state passing over
a list of accumulators.  The thread-local random generator obtained by
`get_rng()` at each surface hit is modelled by a family of independent tapes
indexed by the position of the hit in the recursion tree.
-/

namespace SolarModel

/-- Generic fold invariant: a property preserved by every step of a left
fold holds of the fold result. -/
theorem foldl_preserves {α β : Type _} (P : α → Prop) (step : α → β → α) :
    ∀ (l : List β) (init : α), P init → (∀ a b, P a → P (step a b)) →
      P (l.foldl step init) := by
  intro l
  induction l with
  | nil => intro init h _; simpa using h
  | cons x xs ih => intro init h hstep; exact ih _ (hstep _ _ h) hstep

/-- Two left folds with pointwise-equal step functions agree. -/
theorem foldl_step_congr {α β : Type _} (stepA stepB : α → β → α)
    (h : ∀ a b, stepA a b = stepB a b) :
    ∀ (l : List β) (init : α), l.foldl stepA init = l.foldl stepB init := by
  intro l
  induction l with
  | nil => intro init; rfl
  | cons x xs ih => intro init; rw [List.foldl_cons, List.foldl_cons, h, ih]

/-- The second component of any entry of `List.enum` is an entry of the
underlying list (stated for `enumFrom`, which `enum` specialises). -/
theorem mem_of_mem_enumFrom {α : Type _} :
    ∀ (l : List α) (n : ℕ) (p : ℕ × α), p ∈ List.enumFrom n l → p.2 ∈ l := by
  intro l
  induction l with
  | nil => intro n p h; simp [List.enumFrom] at h
  | cons x xs ih =>
      intro n p h
      simp only [List.enumFrom, List.mem_cons] at h
      rcases h with h | h
      · simp [h]
      · exact List.mem_cons_of_mem _ (ih _ _ h)

/-- Specialisation of `mem_of_mem_enumFrom` to `List.enum`. -/
theorem mem_of_mem_enum {α : Type _} {l : List α} {p : ℕ × α}
    (h : p ∈ l.enum) : p.2 ∈ l :=
  mem_of_mem_enumFrom l 0 p h

/-- `List.set` with the default value: reading back the written index. -/
theorem getD_set_self :
    ∀ (s : List ℚ) (b : ℕ) (x : ℚ), b < s.length → (s.set b x).getD b 0 = x := by
  intro s
  induction s with
  | nil => intro b x h; simp at h
  | cons y ys ih =>
      intro b x h
      cases b with
      | zero => rfl
      | succ b =>
          simp only [List.set, List.getD, List.getElem?_cons_succ]
          exact ih b x (by simpa using h)

/-- `List.set` leaves every other index unchanged. -/
theorem getD_set_ne :
    ∀ (s : List ℚ) (b j : ℕ) (x : ℚ), j ≠ b → (s.set b x).getD j 0 = s.getD j 0 := by
  intro s
  induction s with
  | nil => intro b j x _; simp [List.set]
  | cons y ys ih =>
      intro b j x hj
      cases b with
      | zero =>
          cases j with
          | zero => exact absurd rfl hj
          | succ j => rfl
      | succ b =>
          cases j with
          | zero => rfl
          | succ j =>
              simp only [List.set, List.getD, List.getElem?_cons_succ]
              exact ih b j x (fun h => hj (by rw [h]))

/-- Reading any index of a list of non-negative entries is non-negative. -/
theorem getD_nonneg_of_forall {s : List ℚ} (h : ∀ y ∈ s, 0 ≤ y) (j : ℕ) :
    0 ≤ s.getD j 0 := by
  by_cases hj : j < s.length
  · have := List.getD_eq_getElem s 0 hj
    rw [this]
    exact h _ (List.getElem_mem hj)
  · rw [List.getD_eq_default s 0 (by omega)]

/-- A fold invariant only needed at entries of the folded list. -/
theorem foldl_preserves_mem {α β : Type _} (P : α → Prop) (step : α → β → α) :
    ∀ (l : List β) (init : α), P init →
      (∀ a b, b ∈ l → P a → P (step a b)) → P (l.foldl step init) := by
  intro l
  induction l with
  | nil => intro init h _; simpa using h
  | cons x xs ih =>
      intro init h hstep
      exact ih _ (hstep _ _ (List.mem_cons_self x xs) h)
        (fun a b hb => hstep a b (List.mem_cons_of_mem _ hb))

/-- Reading `List.replicate` through `getD`. -/
theorem getD_replicate {α : Type _} :
    ∀ (n : ℕ) (a d : α) (i : ℕ),
      (List.replicate n a).getD i d = if i < n then a else d := by
  intro n
  induction n with
  | zero => intro a d i; simp [List.replicate]
  | succ n ih =>
      intro a d i
      cases i with
      | zero => simp [List.replicate]
      | succ i =>
          have hstep : (List.replicate (n + 1) a).getD (i + 1) d
              = (List.replicate n a).getD i d := rfl
          rw [hstep, ih a d i]
          simp [Nat.succ_lt_succ_iff]

/-- `List.set` past the end of the list is a no-op. -/
theorem set_of_length_le {α : Type _} :
    ∀ (l : List α) (i : ℕ) (a : α), l.length ≤ i → l.set i a = l := by
  intro l
  induction l with
  | nil => intro i a _; rfl
  | cons x xs ih =>
      intro i a h
      cases i with
      | zero => simp at h
      | succ i => simp only [List.set]; rw [ih i a (by simpa using h)]

/-! ## Data model (from the consumed interfaces of the source file) -/

/-- A 3D vector (`geometry3d::Vector3D` / `Point3D`), with the crate's
`Float` embedded as an exact rational. -/
structure Vec3 where
  x : ℚ
  y : ℚ
  z : ℚ
deriving DecidableEq

/-- The overloaded `*` of `Vector3D` used at `normal * new_ray_dir`:
the dot product. -/
def Vec3.dot (a b : Vec3) : ℚ :=
  a.x * b.x + a.y * b.y + a.z * b.z

/-- Scalar multiple, used by `Ray3D::project`. -/
def Vec3.smul (t : ℚ) (a : Vec3) : Vec3 :=
  ⟨t * a.x, t * a.y, t * a.z⟩

/-- Componentwise sum, used by `Ray3D::project`. -/
def Vec3.add (a b : Vec3) : Vec3 :=
  ⟨a.x + b.x, a.y + b.y, a.z + b.z⟩

/-- `geometry3d::Ray3D`: an origin point and a direction. -/
structure Ray3D where
  origin : Vec3
  direction : Vec3
deriving DecidableEq

/-- `Ray3D::project(t)`: the point at parameter `t` along the ray. -/
def Ray3D.project (r : Ray3D) (t : ℚ) : Vec3 :=
  r.origin.add (Vec3.smul t r.direction)

/-- `rendering::ray::Ray`: a timed ray. -/
structure Ray where
  time : ℚ
  geometry : Ray3D
deriving DecidableEq

/-- `geometry3d::intersect_trait::SurfaceSide`. -/
inductive SurfaceSide where
  | Front : SurfaceSide
  | Back : SurfaceSide
  | NonApplicable : SurfaceSide
deriving DecidableEq

/-- The geometric shading data carried by a surface interaction: the
(possibly textured) normal returned by `data.normal()` and the side field
`data.geometry_shading.side`. -/
structure ShadingData where
  normal : Vec3
  side : SurfaceSide
deriving DecidableEq

/-- The random generator returned by `get_rng()`: a tape of uniform draws
with a cursor.  `rng.gen()` reads the next draw. -/
structure Rng where
  tape : ℕ → ℚ
  pos : ℕ

/-- `rng.gen()`: the next uniform draw and the advanced generator. -/
def Rng.gen (r : Rng) : ℚ × Rng :=
  (r.tape r.pos, ⟨r.tape, r.pos + 1⟩)

/-- A material of the scene's material table.  `colourRed` is
`material.colour().red` (the source uses only the red channel);
`bsdfSampler` is the closure `material.bsdf_sampler(geometry_shading)`
applied to the incoming direction and the random generator, returning the
outgoing direction, the sampling probability (discarded by the source as
`_material_pdf`), and the advanced generator. -/
structure Material where
  emitsDirectLight : Bool
  colourRed : ℚ
  bsdfSampler : ShadingData → Vec3 → Rng → (Vec3 × ℚ) × Rng

/-- The object resolved by `interaction.object()`: its front and back
material indices into the scene's material table. -/
structure HitObject where
  frontMaterialIndex : ℕ
  backMaterialIndex : ℕ
deriving DecidableEq

/-- The payload of `Interaction::Surface` (the source treats any other
interaction variant as unreachable). -/
structure SurfaceInteraction where
  object : HitObject
  geometryShading : ShadingData
deriving DecidableEq

/-- `data.normal()`. -/
def SurfaceInteraction.normal (d : SurfaceInteraction) : Vec3 :=
  d.geometryShading.normal

/-- `rendering::scene::Scene`, reduced to the interface the core consumes:
`cast_ray` returns the hit distance and surface interaction of the closest
hit, and `materials` is the material table (indexed access is assumed
in-bounds by §7 of the design, so the table is embedded as a total map). -/
structure Scene where
  castRay : Ray → Option (ℚ × SurfaceInteraction)
  materials : ℕ → Material

/-- `solar::ReinhartSky`: the sky binner, exposing the bin count and the
direction-to-bin map `dir_to_bin`. -/
structure ReinhartSky where
  nBins : ℕ
  dirToBin : Vec3 → ℕ

/-- The family of independent thread-local generators: `rngAt path` is the
generator `get_rng()` hands to the hit processed at position `path` of the
recursion tree (first-bounce call at `[]`, sample `i` of a hit at `p`
recursing at `p ++ [i]`). -/
structure RandTree where
  tape : List ℕ → ℕ → ℚ

/-- The fresh generator obtained by `get_rng()` at a given hit. -/
def RandTree.rngAt (R : RandTree) (path : List ℕ) : Rng :=
  ⟨R.tape path, 0⟩

/-- `DCFactory` (lines 124-132 of the source). -/
structure DCFactory where
  reinhart : ReinhartSky
  maxDepth : ℕ
  nShadowSamples : ℕ
  nAmbientSamples : ℕ
  limitWeight : ℚ

/-- `Default for DCFactory` (lines 134-146), parameterised by the external
constructor `ReinhartSky::new`. -/
def DCFactory.default (rnew : ℕ → ReinhartSky) : DCFactory :=
  { reinhart := rnew 1
    maxDepth := 0
    nShadowSamples := 900
    nAmbientSamples := 10
    limitWeight := 1 / 100000 }

/-- `DCFactory::new(mf)` (lines 156-161). -/
def DCFactory.new (rnew : ℕ → ReinhartSky) (mf : ℕ) : DCFactory :=
  { DCFactory.default rnew with reinhart := rnew mf }

/-- `((x).sqrt() + 0.5).round() as usize` from line 210 of the source, for a
non-negative argument: Rust rounds half away from zero, so the value is
`⌊√x + 1/2 + 1/2⌋ = ⌊√x⌋ + 1 = Nat.sqrt ⌊x⌋ + 1`.  The computable right-hand
side is used as the definition; `roundSqrtHalf_eq` proves the equation with
the exact real square root. -/
def roundSqrtHalf (q : ℚ) : ℕ :=
  Nat.sqrt (⌊q⌋.toNat) + 1

/-- `roundSqrtHalf` agrees with the literal source expression
`round(sqrt x + 0.5)` read over the exact reals. -/
theorem roundSqrtHalf_eq (q : ℚ) (hq : 0 ≤ q) :
    (roundSqrtHalf q : ℤ) = ⌊Real.sqrt (q : ℝ) + 1 / 2 + 1 / 2⌋ := by
  have hfl : (0 : ℤ) ≤ ⌊q⌋ := Int.floor_nonneg.mpr hq
  set m : ℕ := ⌊q⌋.toNat with hm
  have hmz : ((m : ℤ)) = ⌊q⌋ := by rw [hm]; exact Int.toNat_of_nonneg hfl
  have hmq : ((m : ℚ)) ≤ q := by
    have hle := Int.floor_le q
    rw [← hmz] at hle
    exact_mod_cast hle
  have hqm : q < (m : ℚ) + 1 := by
    have hlt := Int.lt_floor_add_one q
    rw [← hmz] at hlt
    exact_mod_cast hlt
  set k : ℕ := Nat.sqrt m with hk
  have hmqR : ((m : ℝ)) ≤ (q : ℝ) := by exact_mod_cast hmq
  have hqmR : (q : ℝ) < (m : ℝ) + 1 := by exact_mod_cast hqm
  have hqR : (0 : ℝ) ≤ (q : ℝ) := by exact_mod_cast hq
  have h1 : (k : ℝ) ≤ Real.sqrt (q : ℝ) := by
    rw [Real.le_sqrt (by positivity) hqR]
    calc ((k : ℝ)) ^ 2 = ((k ^ 2 : ℕ) : ℝ) := by push_cast; ring
    _ ≤ (m : ℝ) := by exact_mod_cast Nat.sqrt_le' m
    _ ≤ (q : ℝ) := hmqR
  have h2 : Real.sqrt (q : ℝ) < (k : ℝ) + 1 := by
    rw [Real.sqrt_lt' (by positivity)]
    calc (q : ℝ) < (m : ℝ) + 1 := hqmR
    _ ≤ ((k : ℝ) + 1) ^ 2 := by
        have := Nat.succ_le_succ_sqrt' m
        calc (m : ℝ) + 1 = ((m + 1 : ℕ) : ℝ) := by push_cast; ring
        _ ≤ (((Nat.sqrt m + 1) ^ 2 : ℕ) : ℝ) := by exact_mod_cast this
        _ = ((k : ℝ) + 1) ^ 2 := by rw [← hk]; push_cast; ring
  have hfloor : ⌊Real.sqrt (q : ℝ)⌋ = (k : ℤ) := by
    rw [Int.floor_eq_iff]
    constructor
    · exact_mod_cast h1
    · exact_mod_cast h2
  have : Real.sqrt (q : ℝ) + 1 / 2 + 1 / 2 = Real.sqrt (q : ℝ) + ((1 : ℤ) : ℝ) := by
    push_cast; ring
  rw [this, Int.floor_add_int, hfloor, roundSqrtHalf]
  push_cast
  ring

/-- The adaptive branch count of `trace_ray` (source lines 203-213, adapted
from Radiance): clamp the weight, then
`n = ((n_ambient_samples * wt).sqrt() + 0.5).round()`, floored at 1. -/
def DCFactory.branchCount (f : DCFactory) (currentValue : ℚ) : ℕ :=
  let oneOverSamples : ℚ := 1 / (f.nAmbientSamples : ℚ)
  let wt : ℚ := currentValue
  let d : ℚ := 0.8 * currentValue * currentValue * oneOverSamples / f.limitWeight
  let wt : ℚ := if wt > d then d else wt
  let n : ℕ := roundSqrtHalf ((f.nAmbientSamples : ℚ) * wt)
  if n < 1 then 1 else n

/-- `s[bin_n] += x` on the spectrum (source line 258).  The source would
panic on an out-of-range bin; §7 makes an in-range bin index a contract of
the sky binner, and `List.set` is the identity there. -/
def addToBin (s : List ℚ) (i : ℕ) (x : ℚ) : List ℚ :=
  s.set i (s.getD i 0 + x)

/-- The front/back material resolution of source lines 181-191: the match on
`data.geometry_shading.side`, whose `NonApplicable` arm returns early
(`none` here). -/
def resolveSideMaterial (scene : Scene) (object : HitObject) :
    SurfaceSide → Option Material
  | SurfaceSide.Front => some (scene.materials object.frontMaterialIndex)
  | SurfaceSide.Back => some (scene.materials object.backMaterialIndex)
  | SurfaceSide.NonApplicable => none

/-- The body of `trace_ray` once the scene reports a hit (source lines
174-250), with the recursive call abstracted as `recurse` (which
`DCFactory.traceGo` instantiates with the next fuel level).  The `(0..n)`
loop threads the hit's generator and the spectrum through a fold.  Note the
russian-roulette block (source lines 236-242): a draw above the ratio ends
the sample via `return`, and a draw at or below it reaches the end of the
closure body with no recursive call either, so both arms of the inner `if`
leave the spectrum untouched. -/
def DCFactory.hitCase (f : DCFactory) (scene : Scene) (R : RandTree)
    (recurse : List ℕ → Ray → ℕ → ℚ → ℕ → List ℚ → List ℚ)
    (path : List ℕ) (ray : Ray) (currentDepth : ℕ) (currentValue : ℚ)
    (denomSamples : ℕ) (t : ℚ) (interaction : SurfaceInteraction)
    (spectrum : List ℚ) : List ℚ :=
  let object := interaction.object
  let data := interaction
  let normal := data.normal
  match resolveSideMaterial scene object data.geometryShading.side with
  | none => spectrum
  | some material =>
    let intersectionPt := ray.geometry.project t
    let rayDir := ray.geometry.direction
    if material.emitsDirectLight then spectrum
    else
      let rng := R.rngAt path
      let n := f.branchCount currentValue
      ((List.range n).foldl (fun st i =>
        let drawn := material.bsdfSampler data.geometryShading rayDir st.1
        let newRayDir := drawn.1.1
        let rng1 := drawn.2
        let newRay : Ray :=
          { time := ray.time
            geometry := { origin := intersectionPt, direction := newRayDir } }
        let cosTheta : ℚ := |Vec3.dot normal newRayDir|
        let refl : ℚ := material.colourRed
        let newValue : ℚ := currentValue * cosTheta * refl * 1.5
        if f.limitWeight > 0 ∧ newValue < f.limitWeight then
          let g := Rng.gen rng1
          let q := g.1
          let rng2 := g.2
          if q > newValue / f.limitWeight then (rng2, st.2) else (rng2, st.2)
        else
          (rng1, recurse (path ++ [i]) newRay (currentDepth + 1) newValue
            (denomSamples * n) st.2)) (rng, spectrum)).2

/-- `DCFactory::trace_ray` (source lines 166-260) with an explicit fuel
argument making the recursion structural; `DCFactory.traceRay` instantiates
the fuel with `max_depth + 1 - current_depth`, which the depth cutoff keeps
positive on every reachable recursive call, so the fuel-exhausted branch
coincides with the cutoff branch. -/
def DCFactory.traceGo (f : DCFactory) (scene : Scene) (R : RandTree) :
    ℕ → List ℕ → Ray → ℕ → ℚ → ℕ → List ℚ → List ℚ
  | 0, _, _, _, _, _, spectrum => spectrum
  | fuel + 1, path, ray, currentDepth, currentValue, denomSamples, spectrum =>
    if currentDepth > f.maxDepth then spectrum
    else
      match scene.castRay ray with
      | some (t, interaction) =>
          f.hitCase scene R
            (fun p r d v dn sp => f.traceGo scene R fuel p r d v dn sp)
            path ray currentDepth currentValue denomSamples t interaction
            spectrum
      | none =>
          let binN := f.reinhart.dirToBin ray.geometry.direction
          let li : ℚ := 1
          addToBin spectrum binN (li * currentValue / (denomSamples : ℚ))

/-- `DCFactory::trace_ray`: the fuel is determined by the remaining bounce
budget. -/
def DCFactory.traceRay (f : DCFactory) (scene : Scene) (R : RandTree)
    (path : List ℕ) (ray : Ray) (currentDepth : ℕ) (currentValue : ℚ)
    (denomSamples : ℕ) (spectrum : List ℚ) : List ℚ :=
  f.traceGo scene R (f.maxDepth + 1 - currentDepth) path ray currentDepth
    currentValue denomSamples spectrum

/-! ## The DC matrix builder (`calc_dc`, source lines 40-120) -/

/-- The dense `matrix::Matrix` consumed by `calc_dc`, reduced to its row
data. -/
structure Matrix where
  data : List (List ℚ)
deriving DecidableEq

/-- `Matrix::new(v, nrows, ncols)`. -/
def Matrix.new (v : ℚ) (nrows ncols : ℕ) : Matrix :=
  ⟨List.replicate nrows (List.replicate ncols v)⟩

/-- `ret.set(i, j, v)`; the source unwraps the error case, which only
arises out of bounds, where `List.set` is the identity. -/
def Matrix.set (m : Matrix) (i j : ℕ) (v : ℚ) : Matrix :=
  ⟨m.data.set i ((m.data.getD i []).set j v)⟩

/-- The write-out loop of source lines 111-117: each finalized sensor
spectrum is copied cell by cell into its matrix row. -/
def Matrix.writeRows (m : Matrix) (dcs : List (List ℚ)) : Matrix :=
  (List.enum dcs).foldl (fun acc sv =>
    (List.enum sv.2).foldl (fun acc2 pv => acc2.set sv.1 pv.1 pv.2) acc) m

/-- The factory built at source lines 42-44: `DCFactory::new(mf)` followed
by the two post-construction field writes. -/
def calcDCFactory (rnew : ℕ → ReinhartSky) (mf : ℕ) : DCFactory :=
  { DCFactory.new rnew mf with maxDepth := 3, nAmbientSamples := 3000 }

/-- `calc_dc` (source lines 40-120).  The external collaborators are
parameters: `rnew` is `ReinhartSky::new`, `sampler` is the
`HorizontalCosineWeightedHemisphereSampler` direction sequence for a given
sample count, `rtree` gives the independent random tapes of each
(sensor, first-bounce sample) work item, and `PI` is the crate-level `PI`
constant (defined outside this source file).  Progress-counter output is an
I/O side effect with no bearing on the result and is not modelled. -/
def calcDC (rnew : ℕ → ReinhartSky) (sampler : ℕ → List Vec3)
    (rtree : ℕ → ℕ → RandTree) (PI : ℚ) (rays : List Ray3D) (scene : Scene)
    (mf : ℕ) : Matrix :=
  let factory := calcDCFactory rnew mf
  let nBins := factory.reinhart.nBins
  let ret := Matrix.new 0 rays.length nBins
  let dcs : List (List ℚ) := (List.enum rays).map (fun sray =>
    let origin := sray.2.origin
    let spectrum : List ℚ := List.replicate nBins 0
    (List.enum (sampler factory.nAmbientSamples)).foldl (fun spec idir =>
      let newRay : Ray :=
        { time := 0, geometry := { origin := origin, direction := idir.2 } }
      factory.traceRay scene (rtree sray.1 idir.1) [] newRay 0 PI
        factory.nAmbientSamples spec) spectrum)
  ret.writeRows dcs

/-! ## Spec-side comparators -/

/-- The per-hit branching loop exactly as claim C8 words it: every sampled
sub-branch carries weight `current_value * |normal ⬝ outgoing| * red * 1.5`,
and a branch that recurses does so via `trace_ray` at depth
`current_depth + 1` with that weight and denominator `denom_samples * n`. -/
def branchLoopSpec (f : DCFactory) (scene : Scene) (R : RandTree)
    (path : List ℕ) (ray : Ray) (currentDepth : ℕ) (currentValue : ℚ)
    (denomSamples : ℕ) (t : ℚ) (interaction : SurfaceInteraction)
    (material : Material) (spectrum : List ℚ) : List ℚ :=
  let n := f.branchCount currentValue
  ((List.range n).foldl (fun st i =>
    let drawn := material.bsdfSampler interaction.geometryShading
      ray.geometry.direction st.1
    let newValue : ℚ :=
      currentValue * |Vec3.dot interaction.normal drawn.1.1| *
        material.colourRed * 1.5
    if f.limitWeight > 0 ∧ newValue < f.limitWeight then
      ((Rng.gen drawn.2).2, st.2)
    else
      (drawn.2, f.traceRay scene R (path ++ [i])
        { time := ray.time
          geometry := { origin := ray.geometry.project t,
                        direction := drawn.1.1 } }
        (currentDepth + 1) newValue (denomSamples * n) st.2))
    (R.rngAt path, spectrum)).2

/-- The trace loop with the russian roulette of §4.1 step 6 read literally:
a branch whose draw `q` is at or below `new_value / limit_weight` survives
and recurses with the un-boosted `new_value` (the source instead falls
through without recursing there).  Identical to `traceGo` everywhere
else. -/
def rouletteSpecTraceGo (f : DCFactory) (scene : Scene) (R : RandTree) :
    ℕ → List ℕ → Ray → ℕ → ℚ → ℕ → List ℚ → List ℚ
  | 0, _, _, _, _, _, spectrum => spectrum
  | fuel + 1, path, ray, currentDepth, currentValue, denomSamples, spectrum =>
    if currentDepth > f.maxDepth then spectrum
    else
      match scene.castRay ray with
      | some (t, interaction) =>
          (match resolveSideMaterial scene interaction.object
              interaction.geometryShading.side with
          | none => spectrum
          | some material =>
            if material.emitsDirectLight then spectrum
            else
              let n := f.branchCount currentValue
              ((List.range n).foldl (fun st i =>
                let drawn := material.bsdfSampler interaction.geometryShading
                  ray.geometry.direction st.1
                let newRay : Ray :=
                  { time := ray.time
                    geometry := { origin := ray.geometry.project t,
                                  direction := drawn.1.1 } }
                let newValue : ℚ :=
                  currentValue * |Vec3.dot interaction.normal drawn.1.1| *
                    material.colourRed * 1.5
                if f.limitWeight > 0 ∧ newValue < f.limitWeight then
                  let g := Rng.gen drawn.2
                  if g.1 > newValue / f.limitWeight then (g.2, st.2)
                  else
                    (g.2, rouletteSpecTraceGo f scene R fuel (path ++ [i])
                      newRay (currentDepth + 1) newValue (denomSamples * n)
                      st.2)
                else
                  (drawn.2, rouletteSpecTraceGo f scene R fuel (path ++ [i])
                    newRay (currentDepth + 1) newValue (denomSamples * n)
                    st.2)) (R.rngAt path, spectrum)).2)
      | none =>
          addToBin spectrum (f.reinhart.dirToBin ray.geometry.direction)
            (1 * currentValue / (denomSamples : ℚ))

/-- Entry point of the spec-literal roulette variant, with the same fuel
policy as `DCFactory.traceRay`. -/
def rouletteSpecTraceRay (f : DCFactory) (scene : Scene) (R : RandTree)
    (path : List ℕ) (ray : Ray) (currentDepth : ℕ) (currentValue : ℚ)
    (denomSamples : ℕ) (spectrum : List ℚ) : List ℚ :=
  rouletteSpecTraceGo f scene R (f.maxDepth + 1 - currentDepth) path ray
    currentDepth currentValue denomSamples spectrum

/-! ## Concrete fixtures for witnesses and counterexamples -/

/-- A one-bin sky binner. -/
def skyOne : ReinhartSky :=
  { nBins := 1, dirToBin := fun _ => 0 }

/-- A non-emissive test material with red reflectance 1/5 whose BSDF sampler
always returns the upward unit direction and consumes no randomness. -/
def matTest : Material :=
  { emitsDirectLight := false
    colourRed := 1 / 5
    bsdfSampler := fun _ _ rng => ((⟨0, 0, 1⟩, 1), rng) }

/-- A test object whose two sides both resolve to material 0. -/
def objTest : HitObject :=
  { frontMaterialIndex := 0, backMaterialIndex := 0 }

/-- Shading data for a front hit with the upward normal. -/
def shadingTest : ShadingData :=
  { normal := ⟨0, 0, 1⟩, side := SurfaceSide.Front }

/-- The surface interaction produced by the test scene. -/
def itTest : SurfaceInteraction :=
  { object := objTest, geometryShading := shadingTest }

/-- A test scene: rays from the origin hit the test surface at distance 1;
all other rays escape to the sky. -/
def sceneTest : Scene :=
  { castRay := fun r =>
      if r.geometry.origin = ⟨0, 0, 0⟩ then some (1, itTest) else none
    materials := fun _ => matTest }

/-- A scene in which every ray hits (used to show that only the miss path
writes into the spectrum). -/
def sceneAllHit : Scene :=
  { castRay := fun _ => some (1, itTest)
    materials := fun _ => matTest }

/-- A test factory: one bin, one bounce allowed, one ambient sample,
roulette threshold 1/2. -/
def factoryTest : DCFactory :=
  { reinhart := skyOne
    maxDepth := 1
    nShadowSamples := 900
    nAmbientSamples := 1
    limitWeight := 1 / 2 }

/-- Random tapes that always draw 0, so every roulette test passes. -/
def rtreeZero : RandTree :=
  { tape := fun _ _ => 0 }

/-- The upward test ray from the origin. -/
def rayUp : Ray :=
  { time := 0, geometry := { origin := ⟨0, 0, 0⟩, direction := ⟨0, 0, 1⟩ } }

/-- An upward ray that misses the test scene. -/
def rayMiss : Ray :=
  { time := 0, geometry := { origin := ⟨1, 1, 1⟩, direction := ⟨0, 0, 1⟩ } }

/-- Shading data whose side is non-applicable. -/
def shadingNA : ShadingData :=
  { normal := ⟨0, 0, 1⟩, side := SurfaceSide.NonApplicable }

/-- A surface interaction with a non-applicable side. -/
def itNA : SurfaceInteraction :=
  { object := objTest, geometryShading := shadingNA }

/-- A scene whose every hit has a non-applicable surface side. -/
def sceneNA : Scene :=
  { castRay := fun _ => some (1, itNA)
    materials := fun _ => matTest }

/-- An emissive test material. -/
def matEmit : Material :=
  { emitsDirectLight := true
    colourRed := 1 / 5
    bsdfSampler := fun _ _ rng => ((⟨0, 0, 1⟩, 1), rng) }

/-- A scene whose every hit resolves to the emissive material. -/
def sceneEmit : Scene :=
  { castRay := fun _ => some (1, itTest)
    materials := fun _ => matEmit }

/-- The factory used for the C2 counterexample: four ambient samples, so
that the unclamped weight 9/25 puts `n_ambient_samples * wt = 36/25` with
the fractional square root 6/5. -/
def factoryCE : DCFactory :=
  { reinhart := skyOne
    maxDepth := 0
    nShadowSamples := 900
    nAmbientSamples := 4
    limitWeight := 1 / 100000 }

/-! ## Invariant lemmas about the tracer -/

/-- Adding a non-negative quantity to a bin can only raise the reading of
any index. -/
theorem getD_addToBin_le (sp : List ℚ) (b : ℕ) (x : ℚ) (hx : 0 ≤ x) (j : ℕ) :
    sp.getD j 0 ≤ (addToBin sp b x).getD j 0 := by
  unfold addToBin
  by_cases hb : b < sp.length
  · by_cases hj : j = b
    · subst hj
      rw [getD_set_self sp j _ hb]
      have := getD_set_self sp j (sp.getD j 0 + x) hb
      linarith
    · rw [getD_set_ne sp b j _ hj]
  · rw [set_of_length_le sp b _ (by omega)]

/-- `addToBin` reads back the written bin exactly. -/
theorem getD_addToBin_self (sp : List ℚ) (b : ℕ) (x : ℚ)
    (hb : b < sp.length) : (addToBin sp b x).getD b 0 = sp.getD b 0 + x :=
  getD_set_self sp b _ hb

/-- `addToBin` leaves every other bin unchanged. -/
theorem getD_addToBin_ne (sp : List ℚ) (b j : ℕ) (x : ℚ) (hj : j ≠ b) :
    (addToBin sp b x).getD j 0 = sp.getD j 0 :=
  getD_set_ne sp b j _ hj

/-- `addToBin` preserves the spectrum length. -/
theorem length_addToBin (sp : List ℚ) (b : ℕ) (x : ℚ) :
    (addToBin sp b x).length = sp.length := by
  unfold addToBin; exact sp.length_set b _

/-- A material delivered by the side resolution is an entry of the scene's
material table. -/
theorem resolveSideMaterial_mem (scene : Scene) (object : HitObject)
    (side : SurfaceSide) (m : Material)
    (h : resolveSideMaterial scene object side = some m) :
    ∃ k, m = scene.materials k := by
  cases side with
  | Front => exact ⟨object.frontMaterialIndex, by
      simpa [resolveSideMaterial] using h.symm⟩
  | Back => exact ⟨object.backMaterialIndex, by
      simpa [resolveSideMaterial] using h.symm⟩
  | NonApplicable => simp [resolveSideMaterial] at h

/-- Any property of the spectrum preserved by the continuation is preserved
by the hit-processing loop: the roulette block never writes, and the only
other action on the spectrum is the continuation. -/
theorem hitCase_preserves (f : DCFactory) (scene : Scene) (R : RandTree)
    (P : List ℚ → Prop)
    (recurse : List ℕ → Ray → ℕ → ℚ → ℕ → List ℚ → List ℚ)
    (hrec : ∀ p r d v dn sp, P sp → P (recurse p r d v dn sp))
    (path : List ℕ) (ray : Ray) (currentDepth : ℕ) (currentValue : ℚ)
    (denomSamples : ℕ) (t : ℚ) (interaction : SurfaceInteraction)
    (spectrum : List ℚ) (hP : P spectrum) :
    P (f.hitCase scene R recurse path ray currentDepth currentValue
        denomSamples t interaction spectrum) := by
  unfold DCFactory.hitCase
  cases hmat : resolveSideMaterial scene interaction.object
      interaction.geometryShading.side with
  | none => simpa [hmat] using hP
  | some material =>
      simp only [hmat]
      by_cases hem : material.emitsDirectLight
      · simpa [hem] using hP
      · simp only [hem, if_false, Bool.false_eq_true]
        refine foldl_preserves (fun (st : Rng × List ℚ) => P st.2) _ _ _ hP ?_
        intro a b hPa
        dsimp only
        split
        · split
          · exact hPa
          · exact hPa
        · exact hrec _ _ _ _ _ _ hPa

/-- Like `hitCase_preserves`, threading non-negativity of the branch weight
into the continuation hypothesis. -/
theorem hitCase_preserves_of_nonneg (f : DCFactory) (scene : Scene)
    (R : RandTree) (P : List ℚ → Prop)
    (recurse : List ℕ → Ray → ℕ → ℚ → ℕ → List ℚ → List ℚ)
    (hred : ∀ i, 0 ≤ (scene.materials i).colourRed)
    (hrec : ∀ p r d v dn sp, 0 ≤ v → P sp → P (recurse p r d v dn sp))
    (path : List ℕ) (ray : Ray) (currentDepth : ℕ) (currentValue : ℚ)
    (denomSamples : ℕ) (t : ℚ) (interaction : SurfaceInteraction)
    (spectrum : List ℚ) (hval : 0 ≤ currentValue) (hP : P spectrum) :
    P (f.hitCase scene R recurse path ray currentDepth currentValue
        denomSamples t interaction spectrum) := by
  unfold DCFactory.hitCase
  cases hmat : resolveSideMaterial scene interaction.object
      interaction.geometryShading.side with
  | none => simpa [hmat] using hP
  | some material =>
      obtain ⟨k, hk⟩ := resolveSideMaterial_mem scene _ _ _ hmat
      have hrefl : 0 ≤ material.colourRed := by rw [hk]; exact hred k
      simp only [hmat]
      by_cases hem : material.emitsDirectLight
      · simpa [hem] using hP
      · simp only [hem, if_false, Bool.false_eq_true]
        refine foldl_preserves (fun (st : Rng × List ℚ) => P st.2) _ _ _ hP ?_
        intro a b hPa
        dsimp only
        split
        · split
          · exact hPa
          · exact hPa
        · refine hrec _ _ _ _ _ _ ?_ hPa
          have h15 : (0 : ℚ) ≤ 1.5 := by norm_num
          exact mul_nonneg (mul_nonneg (mul_nonneg hval (abs_nonneg _)) hrefl) h15

/-- Fuel-indexed invariant preservation for the tracer: any spectrum
property preserved by arbitrary bin additions is preserved by `traceGo`. -/
theorem traceGo_preserves (f : DCFactory) (scene : Scene) (R : RandTree)
    (P : List ℚ → Prop)
    (hadd : ∀ sp b x, P sp → P (addToBin sp b x)) :
    ∀ (fuel : ℕ) (path : List ℕ) (ray : Ray) (currentDepth : ℕ)
      (currentValue : ℚ) (denomSamples : ℕ) (spectrum : List ℚ),
      P spectrum →
      P (f.traceGo scene R fuel path ray currentDepth currentValue
          denomSamples spectrum) := by
  intro fuel
  induction fuel with
  | zero =>
      intro path ray currentDepth currentValue denomSamples spectrum hP
      simpa [DCFactory.traceGo] using hP
  | succ fuel ih =>
      intro path ray currentDepth currentValue denomSamples spectrum hP
      simp only [DCFactory.traceGo]
      split
      · exact hP
      · split
        · exact hitCase_preserves f scene R P _
            (fun p r d v dn sp hsp => ih p r d v dn sp hsp)
            _ _ _ _ _ _ _ _ hP
        · exact hadd _ _ _ hP

/-- Fuel-indexed invariant preservation when the property is only preserved
by non-negative bin additions; the branch weights stay non-negative when
the initial weight and the material reflectances are. -/
theorem traceGo_preserves_of_nonneg (f : DCFactory) (scene : Scene)
    (R : RandTree) (P : List ℚ → Prop)
    (hred : ∀ i, 0 ≤ (scene.materials i).colourRed)
    (hadd : ∀ sp b x, 0 ≤ x → P sp → P (addToBin sp b x)) :
    ∀ (fuel : ℕ) (path : List ℕ) (ray : Ray) (currentDepth : ℕ)
      (currentValue : ℚ) (denomSamples : ℕ) (spectrum : List ℚ),
      0 ≤ currentValue → P spectrum →
      P (f.traceGo scene R fuel path ray currentDepth currentValue
          denomSamples spectrum) := by
  intro fuel
  induction fuel with
  | zero =>
      intro path ray currentDepth currentValue denomSamples spectrum _ hP
      simpa [DCFactory.traceGo] using hP
  | succ fuel ih =>
      intro path ray currentDepth currentValue denomSamples spectrum hval hP
      simp only [DCFactory.traceGo]
      split
      · exact hP
      · split
        · exact hitCase_preserves_of_nonneg f scene R P _ hred
            (fun p r d v dn sp hv hsp => ih p r d v dn sp hv hsp)
            _ _ _ _ _ _ _ _ hval hP
        · refine hadd _ _ _ ?_ hP
          have : (0 : ℚ) ≤ (denomSamples : ℚ) := by positivity
          positivity

/-- In a scene where every ray hits, the tracer never touches the
spectrum: only the miss path writes. -/
theorem traceGo_of_all_hit (f : DCFactory) (scene : Scene) (R : RandTree)
    (hall : ∀ r, (scene.castRay r).isSome) :
    ∀ (fuel : ℕ) (path : List ℕ) (ray : Ray) (currentDepth : ℕ)
      (currentValue : ℚ) (denomSamples : ℕ) (spectrum : List ℚ),
      f.traceGo scene R fuel path ray currentDepth currentValue denomSamples
        spectrum = spectrum := by
  intro fuel
  induction fuel with
  | zero =>
      intro path ray currentDepth currentValue denomSamples spectrum
      simp [DCFactory.traceGo]
  | succ fuel ih =>
      intro path ray currentDepth currentValue denomSamples spectrum
      simp only [DCFactory.traceGo]
      split
      · rfl
      · cases hcast : scene.castRay ray with
        | none =>
            have := hall ray
            rw [hcast] at this
            simp at this
        | some ti =>
            simp only [hcast]
            exact hitCase_preserves f scene R (fun s => s = spectrum) _
              (fun p r d v dn sp hsp => by rw [ih p r d v dn sp, hsp])
              _ _ _ _ _ _ _ _ rfl

/-- The depth cutoff: above `max_depth` the entry point hands back the
spectrum unchanged, for every scene. -/
theorem traceRay_stop_of_depth_gt (f : DCFactory) (scene : Scene)
    (R : RandTree) (path : List ℕ) (ray : Ray) (currentDepth : ℕ)
    (currentValue : ℚ) (denomSamples : ℕ) (spectrum : List ℚ)
    (h : f.maxDepth < currentDepth) :
    f.traceRay scene R path ray currentDepth currentValue denomSamples
      spectrum = spectrum := by
  unfold DCFactory.traceRay
  rw [show f.maxDepth + 1 - currentDepth = 0 from by omega]
  simp [DCFactory.traceGo]

/-- At or below the cutoff, the tracer stops unchanged whenever the hit's
side is non-applicable or its resolved material is emissive (shared by the
C6 theorem for its two scenarios). -/
theorem traceRay_stop_of_hit_stop (f : DCFactory) (scene : Scene)
    (R : RandTree) (path : List ℕ) (ray : Ray) (currentDepth : ℕ)
    (currentValue : ℚ) (denomSamples : ℕ) (spectrum : List ℚ) (t : ℚ)
    (interaction : SurfaceInteraction)
    (hhit : scene.castRay ray = some (t, interaction))
    (hstop : resolveSideMaterial scene interaction.object
        interaction.geometryShading.side = none ∨
      ∃ m, resolveSideMaterial scene interaction.object
          interaction.geometryShading.side = some m ∧
        m.emitsDirectLight = true) :
    f.traceRay scene R path ray currentDepth currentValue denomSamples
      spectrum = spectrum := by
  by_cases hd : f.maxDepth < currentDepth
  · exact traceRay_stop_of_depth_gt f scene R path ray currentDepth
      currentValue denomSamples spectrum hd
  · unfold DCFactory.traceRay
    rw [show f.maxDepth + 1 - currentDepth
        = (f.maxDepth - currentDepth) + 1 from by omega]
    simp only [DCFactory.traceGo, hhit]
    rw [if_neg hd]
    unfold DCFactory.hitCase
    rcases hstop with hna | ⟨m, hm, hem⟩
    · simp [hna]
    · simp [hm, hem]

/-! ## The claims -/

/-- Claim C1 (code_bug exhibit).  The spec says a branch whose roulette
draw `q` satisfies `q <= new_value/limit_weight` continues by recursing
with the un-boosted `new_value`.  In the source the survive arm of the
roulette falls through the closure with no recursive call, so the branch
contributes nothing either way.  Concretely: in `factoryTest`/`sceneTest`
the first hit spawns two branches with `new_value = 3/10 < 1/2 =
limit_weight` and draw `q = 0 <= 3/5`; the code leaves the spectrum at
`[0]`, while the tracer with the spec's roulette (surviving branches
recurse) deposits `3/20` twice, for `[3/10]`. -/
theorem claim1_roulette_survivor_never_recurses :
    factoryTest.traceRay sceneTest rtreeZero [] rayUp 0 1 1 [0] = [0] ∧
    rouletteSpecTraceRay factoryTest sceneTest rtreeZero [] rayUp 0 1 1 [0]
      = [3 / 10] := by
  constructor
  · norm_num [DCFactory.traceRay, DCFactory.traceGo, DCFactory.hitCase,
      DCFactory.branchCount, roundSqrtHalf, addToBin, factoryTest, sceneTest,
      rtreeZero, rayUp, skyOne, matTest, itTest, objTest, shadingTest,
      resolveSideMaterial, Vec3.dot, Ray3D.project, Vec3.add, Vec3.smul,
      RandTree.rngAt, Rng.gen, SurfaceInteraction.normal, List.range_succ]
  · norm_num [rouletteSpecTraceRay, rouletteSpecTraceGo,
      DCFactory.branchCount, roundSqrtHalf, addToBin, factoryTest, sceneTest,
      rtreeZero, rayUp, skyOne, matTest, itTest, objTest, shadingTest,
      resolveSideMaterial, Vec3.dot, Ray3D.project, Vec3.add, Vec3.smul,
      RandTree.rngAt, Rng.gen, SurfaceInteraction.normal, List.range_succ]

/-- Claim C2 counterexample.  With four ambient samples, weight 9/25 and a
tiny roulette threshold (so the clamp is inactive and `wt = 9/25`,
`n_ambient_samples * wt = 36/25`), the code computes
`n = round(sqrt(36/25) + 0.5) = round(1.7) = 2`, while the claim's formula
`round(sqrt(n_ambient_samples * wt))`, floored at 1, gives
`round(6/5) = 1`. -/
theorem claim2_counterexample :
    factoryCE.branchCount (9 / 25) = 2 ∧
    max 1 ⌊Real.sqrt ((4 : ℝ) * (9 / 25)) + 1 / 2⌋ = 1 := by
  constructor
  · norm_num [DCFactory.branchCount, roundSqrtHalf, factoryCE]
  · have h : Real.sqrt ((4 : ℝ) * (9 / 25)) = 6 / 5 := by
      rw [show (4 : ℝ) * (9 / 25) = (6 / 5) ^ 2 by norm_num]
      exact Real.sqrt_sq (by norm_num)
    rw [h, show (6 : ℝ) / 5 + 1 / 2 = 17 / 10 by norm_num]
    have hf : ⌊(17 : ℝ) / 10⌋ = 1 := by
      rw [Int.floor_eq_iff]
      norm_num
    rw [hf]
    exact max_self 1

/-- Claim C2, amended.  At every non-emissive hit the branch count is
`round(sqrt(n_ambient_samples * wt) + 0.5)` — one more than the claim's
`round(sqrt(n_ambient_samples * wt))` whenever the square root's
fractional part is below one half — where `wt` is `current_value` clamped
from above to `0.8 * current_value^2 / (n_ambient_samples * limit_weight)`;
the count is never less than 1. -/
theorem claim2_branch_count_amended (f : DCFactory) (cv : ℚ) (h0 : 0 ≤ cv)
    (hA : 0 < f.nAmbientSamples) (hl : 0 < f.limitWeight) :
    ((f.branchCount cv : ℤ) =
      ⌊Real.sqrt ((((f.nAmbientSamples : ℚ) *
          min cv (0.8 * cv ^ 2 /
            ((f.nAmbientSamples : ℚ) * f.limitWeight)) : ℚ) : ℝ))
        + 1 / 2 + 1 / 2⌋) ∧
    1 ≤ f.branchCount cv := by
  have hAq : (0 : ℚ) < (f.nAmbientSamples : ℚ) := by exact_mod_cast hA
  have hd : 0.8 * cv * cv * (1 / (f.nAmbientSamples : ℚ)) / f.limitWeight
      = 0.8 * cv ^ 2 / ((f.nAmbientSamples : ℚ) * f.limitWeight) := by
    field_simp
    ring
  have hdnn : 0 ≤ 0.8 * cv ^ 2 / ((f.nAmbientSamples : ℚ) * f.limitWeight) := by
    apply div_nonneg (by positivity) (le_of_lt (mul_pos hAq hl))
  have hwt : 0 ≤ min cv (0.8 * cv ^ 2 /
      ((f.nAmbientSamples : ℚ) * f.limitWeight)) := le_min h0 hdnn
  have hmin : (if cv > 0.8 * cv * cv * (1 / (f.nAmbientSamples : ℚ)) /
        f.limitWeight
      then 0.8 * cv * cv * (1 / (f.nAmbientSamples : ℚ)) / f.limitWeight
      else cv)
      = min cv (0.8 * cv ^ 2 / ((f.nAmbientSamples : ℚ) * f.limitWeight)) := by
    rw [hd]
    rcases le_or_lt cv (0.8 * cv ^ 2 /
        ((f.nAmbientSamples : ℚ) * f.limitWeight)) with hle | hlt
    · rw [if_neg (not_lt.mpr hle), min_eq_left hle]
    · rw [if_pos hlt, min_eq_right (le_of_lt hlt)]
  constructor
  · show ((DCFactory.branchCount f cv : ℤ)) = _
    unfold DCFactory.branchCount
    simp only [hmin]
    rw [if_neg (by simp [roundSqrtHalf])]
    exact roundSqrtHalf_eq _ (mul_nonneg (le_of_lt hAq) hwt)
  · simp only [DCFactory.branchCount]
    have hgen : ∀ n : ℕ, 1 ≤ (if n < 1 then 1 else n) := by
      intro n
      split <;> omega
    exact hgen _

/-- Witness for claim C2's amended theorem: the counterexample factory with
weight 9/25 satisfies all hypotheses and yields branch count 2. -/
theorem claim2_branch_count_amended_witness :
    (0 ≤ (9 / 25 : ℚ) ∧ 0 < factoryCE.nAmbientSamples ∧
      0 < factoryCE.limitWeight) ∧
    (((factoryCE.branchCount (9 / 25) : ℤ) =
      ⌊Real.sqrt ((((factoryCE.nAmbientSamples : ℚ) *
          min (9 / 25) (0.8 * (9 / 25) ^ 2 /
            ((factoryCE.nAmbientSamples : ℚ) * factoryCE.limitWeight)) : ℚ) : ℝ))
        + 1 / 2 + 1 / 2⌋) ∧
    1 ≤ factoryCE.branchCount (9 / 25)) :=
  ⟨⟨by norm_num, by norm_num [factoryCE], by norm_num [factoryCE]⟩,
    claim2_branch_count_amended factoryCE (9 / 25) (by norm_num)
      (by norm_num [factoryCE]) (by norm_num [factoryCE])⟩

/-- Claim C4: with `current_depth > max_depth` the tracer returns at once —
for every scene and every random source the spectrum comes back unchanged,
so nothing is intersected, nothing recurses, and nothing is written. -/
theorem claim4_depth_cutoff (f : DCFactory) (scene : Scene) (R : RandTree)
    (path : List ℕ) (ray : Ray) (currentDepth : ℕ) (currentValue : ℚ)
    (denomSamples : ℕ) (spectrum : List ℚ)
    (h : f.maxDepth < currentDepth) :
    f.traceRay scene R path ray currentDepth currentValue denomSamples
      spectrum = spectrum :=
  traceRay_stop_of_depth_gt f scene R path ray currentDepth currentValue
    denomSamples spectrum h

/-- Witness for claim C4 at a concrete call above the cutoff. -/
theorem claim4_depth_cutoff_witness :
    factoryTest.maxDepth < 5 ∧
    factoryTest.traceRay sceneTest rtreeZero [] rayUp 5 1 1 [0] = [0] :=
  ⟨by norm_num [factoryTest],
    claim4_depth_cutoff factoryTest sceneTest rtreeZero [] rayUp 5 1 1 [0]
      (by norm_num [factoryTest])⟩

/-- Claim C6: a hit whose surface side is non-applicable, and a hit whose
resolved material emits direct light, both terminate the branch with the
spectrum unchanged and no error (the tracer has no failure channel). -/
theorem claim6_nonapplicable_emissive_silent (f : DCFactory)
    (sceneA sceneB : Scene) (R : RandTree) (path : List ℕ) (ray : Ray)
    (currentDepth : ℕ) (currentValue : ℚ) (denomSamples : ℕ)
    (spectrum : List ℚ) (tA tB : ℚ) (itA itB : SurfaceInteraction)
    (m : Material)
    (hhitA : sceneA.castRay ray = some (tA, itA))
    (hsideA : itA.geometryShading.side = SurfaceSide.NonApplicable)
    (hhitB : sceneB.castRay ray = some (tB, itB))
    (hmB : resolveSideMaterial sceneB itB.object itB.geometryShading.side
      = some m)
    (hem : m.emitsDirectLight = true) :
    f.traceRay sceneA R path ray currentDepth currentValue denomSamples
      spectrum = spectrum ∧
    f.traceRay sceneB R path ray currentDepth currentValue denomSamples
      spectrum = spectrum := by
  constructor
  · refine traceRay_stop_of_hit_stop f sceneA R path ray currentDepth
      currentValue denomSamples spectrum tA itA hhitA (Or.inl ?_)
    rw [hsideA]
    rfl
  · exact traceRay_stop_of_hit_stop f sceneB R path ray currentDepth
      currentValue denomSamples spectrum tB itB hhitB
      (Or.inr ⟨m, hmB, hem⟩)

/-- Witness for claim C6: the non-applicable-side scene and the emissive
scene at a concrete call. -/
theorem claim6_nonapplicable_emissive_silent_witness :
    (sceneNA.castRay rayUp = some (1, itNA) ∧
      itNA.geometryShading.side = SurfaceSide.NonApplicable ∧
      sceneEmit.castRay rayUp = some (1, itTest) ∧
      resolveSideMaterial sceneEmit itTest.object
        itTest.geometryShading.side = some matEmit ∧
      matEmit.emitsDirectLight = true) ∧
    factoryTest.traceRay sceneNA rtreeZero [] rayUp 0 1 1 [0] = [0] ∧
    factoryTest.traceRay sceneEmit rtreeZero [] rayUp 0 1 1 [0] = [0] :=
  ⟨⟨rfl, rfl, rfl, rfl, rfl⟩,
    claim6_nonapplicable_emissive_silent factoryTest sceneNA sceneEmit
      rtreeZero [] rayUp 0 1 1 [0] 1 1 itNA itTest matEmit rfl rfl rfl rfl
      rfl⟩

/-- Claim C3: a miss within the depth cutoff adds exactly
`current_value / denom_samples` (sky radiance 1) to the bin the sky binner
assigns to the ray direction and leaves every other bin unchanged; and in a
scene where no ray ever misses, the tracer never writes into the spectrum,
so the miss path is the only writing path. -/
theorem claim3_miss_deposits_single_bin (f : DCFactory)
    (sceneM sceneH : Scene) (R : RandTree) (path : List ℕ) (ray : Ray)
    (currentDepth : ℕ) (currentValue : ℚ) (denomSamples : ℕ)
    (spectrum : List ℚ)
    (hmiss : sceneM.castRay ray = none) (hdep : currentDepth ≤ f.maxDepth)
    (hb : f.reinhart.dirToBin ray.geometry.direction < spectrum.length)
    (hall : ∀ r, (sceneH.castRay r).isSome) :
    ((f.traceRay sceneM R path ray currentDepth currentValue denomSamples
        spectrum).getD (f.reinhart.dirToBin ray.geometry.direction) 0
      = spectrum.getD (f.reinhart.dirToBin ray.geometry.direction) 0
          + currentValue / (denomSamples : ℚ)) ∧
    (∀ j, j ≠ f.reinhart.dirToBin ray.geometry.direction →
      (f.traceRay sceneM R path ray currentDepth currentValue denomSamples
          spectrum).getD j 0 = spectrum.getD j 0) ∧
    (f.traceRay sceneH R path ray currentDepth currentValue denomSamples
        spectrum = spectrum) := by
  have hunf : f.traceRay sceneM R path ray currentDepth currentValue
      denomSamples spectrum
      = addToBin spectrum (f.reinhart.dirToBin ray.geometry.direction)
          (1 * currentValue / (denomSamples : ℚ)) := by
    unfold DCFactory.traceRay
    rw [show f.maxDepth + 1 - currentDepth
        = (f.maxDepth - currentDepth) + 1 from by omega]
    simp only [DCFactory.traceGo]
    rw [if_neg (by omega)]
    simp only [hmiss]
  refine ⟨?_, ?_, ?_⟩
  · rw [hunf, getD_addToBin_self _ _ _ hb, one_mul]
  · intro j hj
    rw [hunf, getD_addToBin_ne _ _ _ _ hj]
  · exact traceGo_of_all_hit f sceneH R hall _ path ray currentDepth
      currentValue denomSamples spectrum

/-- Witness for claim C3: the test scene misses `rayMiss` and deposits
`1 / 2` into bin 0 of the one-bin spectrum `[5]`; the all-hit scene leaves
the spectrum untouched. -/
theorem claim3_miss_deposits_single_bin_witness :
    (sceneTest.castRay rayMiss = none ∧ 0 ≤ factoryTest.maxDepth ∧
      factoryTest.reinhart.dirToBin rayMiss.geometry.direction
        < ([5] : List ℚ).length ∧
      ∀ r, (sceneAllHit.castRay r).isSome) ∧
    ((factoryTest.traceRay sceneTest rtreeZero [] rayMiss 0 1 2 [5]).getD
        (factoryTest.reinhart.dirToBin rayMiss.geometry.direction) 0
      = ([5] : List ℚ).getD
          (factoryTest.reinhart.dirToBin rayMiss.geometry.direction) 0
          + 1 / ((2 : ℕ) : ℚ)) ∧
    (factoryTest.traceRay sceneAllHit rtreeZero [] rayMiss 0 1 2 [5]
      = [5]) := by
  have h := claim3_miss_deposits_single_bin factoryTest sceneTest
    sceneAllHit rtreeZero [] rayMiss 0 1 2 [5] rfl (Nat.zero_le _)
    (by norm_num [factoryTest, skyOne]) (fun r => rfl)
  exact ⟨⟨rfl, Nat.zero_le _, by norm_num [factoryTest, skyOne],
    fun r => rfl⟩, h.1, h.2.2⟩

/-- Claim C10: the only mutation the tracer performs is adding a
non-negative quantity to one bin, so every spectrum entry is monotonically
non-decreasing across any call (non-negative weight and reflectances
assumed). -/
theorem claim10_spectrum_monotone (f : DCFactory) (scene : Scene)
    (R : RandTree) (path : List ℕ) (ray : Ray) (currentDepth : ℕ)
    (currentValue : ℚ) (denomSamples : ℕ) (spectrum : List ℚ) (j : ℕ)
    (hval : 0 ≤ currentValue)
    (hred : ∀ i, 0 ≤ (scene.materials i).colourRed) :
    spectrum.getD j 0 ≤
      (f.traceRay scene R path ray currentDepth currentValue denomSamples
        spectrum).getD j 0 := by
  unfold DCFactory.traceRay
  have h := traceGo_preserves_of_nonneg f scene R
    (fun s => ∀ i, spectrum.getD i 0 ≤ s.getD i 0) hred
    (fun sp b x hx hsp i => le_trans (hsp i) (getD_addToBin_le sp b x hx i))
    (f.maxDepth + 1 - currentDepth) path ray currentDepth currentValue
    denomSamples spectrum hval (fun i => le_refl _)
  exact h j

/-- Witness for claim C10 at a concrete call. -/
theorem claim10_spectrum_monotone_witness :
    ((0 : ℚ) ≤ 1 ∧ ∀ i, 0 ≤ (sceneTest.materials i).colourRed) ∧
    ([0] : List ℚ).getD 0 0 ≤
      (factoryTest.traceRay sceneTest rtreeZero [] rayUp 0 1 1 [0]).getD
        0 0 :=
  ⟨⟨by norm_num, fun i => by norm_num [sceneTest, matTest]⟩,
    claim10_spectrum_monotone factoryTest sceneTest rtreeZero [] rayUp 0 1
      1 [0] 0 (by norm_num) (fun i => by norm_num [sceneTest, matTest])⟩

/-- The hit-processing loop only depends on the continuation through its
values. -/
theorem hitCase_congr (f : DCFactory) (scene : Scene) (R : RandTree)
    (recA recB : List ℕ → Ray → ℕ → ℚ → ℕ → List ℚ → List ℚ)
    (h : ∀ p r d v dn sp, recA p r d v dn sp = recB p r d v dn sp)
    (path : List ℕ) (ray : Ray) (currentDepth : ℕ) (currentValue : ℚ)
    (denomSamples : ℕ) (t : ℚ) (interaction : SurfaceInteraction)
    (spectrum : List ℚ) :
    f.hitCase scene R recA path ray currentDepth currentValue denomSamples
        t interaction spectrum
      = f.hitCase scene R recB path ray currentDepth currentValue
        denomSamples t interaction spectrum := by
  unfold DCFactory.hitCase
  cases hmat : resolveSideMaterial scene interaction.object
      interaction.geometryShading.side with
  | none => simp [hmat]
  | some material =>
      simp only [hmat]
      by_cases hem : material.emitsDirectLight
      · simp [hem]
      · simp only [hem, if_false, Bool.false_eq_true]
        congr 1
        apply foldl_step_congr
        intro a b
        dsimp only
        split
        · rfl
        · rw [h]

/-- The tracer result does not depend on `n_shadow_samples` (fuel-indexed
core of claim C9). -/
theorem traceGo_shadow (f : DCFactory) (s : ℕ) (scene : Scene)
    (R : RandTree) :
    ∀ (fuel : ℕ) (path : List ℕ) (ray : Ray) (currentDepth : ℕ)
      (currentValue : ℚ) (denomSamples : ℕ) (spectrum : List ℚ),
      ({ f with nShadowSamples := s } : DCFactory).traceGo scene R fuel path
          ray currentDepth currentValue denomSamples spectrum
        = f.traceGo scene R fuel path ray currentDepth currentValue
          denomSamples spectrum := by
  intro fuel
  induction fuel with
  | zero =>
      intro path ray currentDepth currentValue denomSamples spectrum
      simp [DCFactory.traceGo]
  | succ fuel ih =>
      intro path ray currentDepth currentValue denomSamples spectrum
      have hbody : ({ f with nShadowSamples := s } : DCFactory).traceGo
          scene R (fuel + 1) path ray currentDepth currentValue denomSamples
          spectrum
          = if currentDepth > f.maxDepth then spectrum
            else
              match scene.castRay ray with
              | some (t, interaction) =>
                  f.hitCase scene R
                    (fun p r d v dn sp =>
                      ({ f with nShadowSamples := s } : DCFactory).traceGo
                        scene R fuel p r d v dn sp)
                    path ray currentDepth currentValue denomSamples t
                    interaction spectrum
              | none =>
                  addToBin spectrum
                    (f.reinhart.dirToBin ray.geometry.direction)
                    (1 * currentValue / (denomSamples : ℚ)) := rfl
      rw [hbody]
      simp only [DCFactory.traceGo]
      split
      · rfl
      · cases hcast : scene.castRay ray with
        | none => rfl
        | some ti =>
            obtain ⟨t, it⟩ := ti
            exact hitCase_congr f scene R _ _
              (fun p r d v dn sp => ih p r d v dn sp) path ray currentDepth
              currentValue denomSamples t it spectrum

/-- Claim C9: two factories identical except in `n_shadow_samples` produce
identical tracer results on every input (the field is dead configuration
for the core computation). -/
theorem claim9_shadow_samples_irrelevant (f : DCFactory) (s1 s2 : ℕ)
    (scene : Scene) (R : RandTree) (path : List ℕ) (ray : Ray)
    (currentDepth : ℕ) (currentValue : ℚ) (denomSamples : ℕ)
    (spectrum : List ℚ) :
    ({ f with nShadowSamples := s1 } : DCFactory).traceRay scene R path ray
        currentDepth currentValue denomSamples spectrum
      = ({ f with nShadowSamples := s2 } : DCFactory).traceRay scene R path
        ray currentDepth currentValue denomSamples spectrum := by
  unfold DCFactory.traceRay
  have h1 := traceGo_shadow f s1 scene R (f.maxDepth + 1 - currentDepth)
    path ray currentDepth currentValue denomSamples spectrum
  have h2 := traceGo_shadow f s2 scene R (f.maxDepth + 1 - currentDepth)
    path ray currentDepth currentValue denomSamples spectrum
  exact h1.trans h2.symm

/-- Claim C8: the tracer at a non-emissive hit within the cutoff is exactly
the claim's branching loop — each sampled sub-branch carries weight
`current_value * |normal ⬝ outgoing| * red * 1.5`, and a recursing branch
calls `trace_ray` at depth `current_depth + 1` with that weight and
denominator `denom_samples * n`. -/
theorem claim8_branch_weight_and_recursion (f : DCFactory) (scene : Scene)
    (R : RandTree) (path : List ℕ) (ray : Ray) (currentDepth : ℕ)
    (currentValue : ℚ) (denomSamples : ℕ) (spectrum : List ℚ) (t : ℚ)
    (interaction : SurfaceInteraction) (material : Material)
    (hdep : currentDepth ≤ f.maxDepth)
    (hhit : scene.castRay ray = some (t, interaction))
    (hmat : resolveSideMaterial scene interaction.object
      interaction.geometryShading.side = some material)
    (hem : material.emitsDirectLight = false) :
    f.traceRay scene R path ray currentDepth currentValue denomSamples
        spectrum
      = branchLoopSpec f scene R path ray currentDepth currentValue
        denomSamples t interaction material spectrum := by
  unfold DCFactory.traceRay
  rw [show f.maxDepth + 1 - currentDepth
      = (f.maxDepth - currentDepth) + 1 from by omega]
  simp only [DCFactory.traceGo]
  rw [if_neg (by omega)]
  simp only [hhit]
  unfold DCFactory.hitCase branchLoopSpec
  simp only [hmat, hem, Bool.false_eq_true, if_false]
  congr 1
  apply foldl_step_congr
  intro a b
  dsimp only
  split
  · rw [ite_self]
  · unfold DCFactory.traceRay
    rw [show f.maxDepth + 1 - (currentDepth + 1)
        = f.maxDepth - currentDepth from by omega]

/-- Witness for claim C8 at the test scene's first hit. -/
theorem claim8_branch_weight_and_recursion_witness :
    (0 ≤ factoryTest.maxDepth ∧
      sceneTest.castRay rayUp = some (1, itTest) ∧
      resolveSideMaterial sceneTest itTest.object
        itTest.geometryShading.side = some matTest ∧
      matTest.emitsDirectLight = false) ∧
    factoryTest.traceRay sceneTest rtreeZero [] rayUp 0 1 1 [0]
      = branchLoopSpec factoryTest sceneTest rtreeZero [] rayUp 0 1 1 1
        itTest matTest [0] :=
  ⟨⟨Nat.zero_le _, rfl, rfl, rfl⟩,
    claim8_branch_weight_and_recursion factoryTest sceneTest rtreeZero []
      rayUp 0 1 1 [0] 1 itTest matTest (Nat.zero_le _) rfl rfl rfl⟩

/-! ## Matrix assembly lemmas and claims C5, C7 -/

/-- Adding a non-negative quantity preserves entrywise non-negativity of a
spectrum. -/
theorem addToBin_nonneg_entries (sp : List ℚ) (b : ℕ) (x : ℚ) (hx : 0 ≤ x)
    (h : ∀ y ∈ sp, 0 ≤ y) : ∀ y ∈ addToBin sp b x, 0 ≤ y := by
  intro y hy
  unfold addToBin at hy
  rcases List.mem_or_eq_of_mem_set hy with h2 | h2
  · exact h y h2
  · subst h2
    have := getD_nonneg_of_forall h b
    linarith

/-- The tracer preserves the spectrum's length and entrywise
non-negativity when the weight and the reflectances are non-negative. -/
theorem traceRay_spectrum_ok (f : DCFactory) (scene : Scene) (R : RandTree)
    (path : List ℕ) (ray : Ray) (currentDepth : ℕ) (currentValue : ℚ)
    (denomSamples : ℕ) (sp : List ℚ) (nBins : ℕ)
    (hv : 0 ≤ currentValue)
    (hred : ∀ i, 0 ≤ (scene.materials i).colourRed)
    (h : sp.length = nBins ∧ ∀ y ∈ sp, 0 ≤ y) :
    (f.traceRay scene R path ray currentDepth currentValue denomSamples
        sp).length = nBins ∧
    ∀ y ∈ f.traceRay scene R path ray currentDepth currentValue denomSamples
        sp, 0 ≤ y := by
  unfold DCFactory.traceRay
  exact traceGo_preserves_of_nonneg f scene R
    (fun s => s.length = nBins ∧ ∀ y ∈ s, 0 ≤ y) hred
    (fun sp2 b x hx hsp2 =>
      ⟨by rw [length_addToBin]; exact hsp2.1,
        addToBin_nonneg_entries sp2 b x hx hsp2.2⟩)
    _ path ray currentDepth currentValue denomSamples sp hv h

/-- A sensor's first-bounce fold produces a spectrum of the right length
with non-negative entries. -/
theorem sensorSpectrum_ok (factory : DCFactory) (scene : Scene)
    (rt : ℕ → RandTree) (PI : ℚ) (origin : Vec3) (nBins : ℕ)
    (dirs : List (ℕ × Vec3))
    (hPI : 0 ≤ PI) (hred : ∀ i, 0 ≤ (scene.materials i).colourRed) :
    (dirs.foldl (fun spec idir =>
        factory.traceRay scene (rt idir.1) []
          { time := 0,
            geometry := { origin := origin, direction := idir.2 } }
          0 PI factory.nAmbientSamples spec)
      (List.replicate nBins 0)).length = nBins ∧
    ∀ v ∈ dirs.foldl (fun spec idir =>
        factory.traceRay scene (rt idir.1) []
          { time := 0,
            geometry := { origin := origin, direction := idir.2 } }
          0 PI factory.nAmbientSamples spec)
      (List.replicate nBins 0), 0 ≤ v := by
  refine foldl_preserves
    (fun sp : List ℚ => sp.length = nBins ∧ ∀ v ∈ sp, 0 ≤ v) _ dirs
    (List.replicate nBins 0)
    ⟨List.length_replicate nBins 0, fun v hv => by
      rw [List.eq_of_mem_replicate hv]⟩ ?_
  intro sp idir hsp
  exact traceRay_spectrum_ok factory scene (rt idir.1) []
    { time := 0, geometry := { origin := origin, direction := idir.2 } }
    0 PI factory.nAmbientSamples sp nBins hPI hred hsp

/-- `Matrix.set` with a non-negative value preserves row lengths and
entrywise non-negativity. -/
theorem matrix_set_preserves (B : ℕ) (m : Matrix) (i j : ℕ) (v : ℚ)
    (hv : 0 ≤ v)
    (hlen : ∀ row ∈ m.data, row.length = B)
    (hpos : ∀ row ∈ m.data, ∀ x ∈ row, 0 ≤ x) :
    (∀ row ∈ (m.set i j v).data, row.length = B) ∧
    (∀ row ∈ (m.set i j v).data, ∀ x ∈ row, 0 ≤ x) := by
  by_cases hi : i < m.data.length
  · have hrowmem : m.data.getD i [] ∈ m.data := by
      rw [List.getD_eq_getElem m.data [] hi]
      exact List.getElem_mem hi
    constructor
    · intro row hrow
      rcases List.mem_or_eq_of_mem_set hrow with h | h
      · exact hlen row h
      · subst h
        rw [List.length_set]
        exact hlen _ hrowmem
    · intro row hrow
      rcases List.mem_or_eq_of_mem_set hrow with h | h
      · exact hpos row h
      · subst h
        intro x hx
        rcases List.mem_or_eq_of_mem_set hx with h2 | h2
        · exact hpos _ hrowmem x h2
        · subst h2; exact hv
  · have hnoop : (m.set i j v).data = m.data := by
      simp only [Matrix.set]
      exact set_of_length_le _ _ _ (by omega)
    rw [hnoop]
    exact ⟨hlen, hpos⟩

/-- The write-out loop never changes the number of rows. -/
theorem writeRows_data_length (m : Matrix) (dcs : List (List ℚ)) :
    (m.writeRows dcs).data.length = m.data.length := by
  unfold Matrix.writeRows
  refine foldl_preserves
    (fun acc : Matrix => acc.data.length = m.data.length) _ _ _ rfl ?_
  intro acc sv hacc
  refine foldl_preserves
    (fun acc2 : Matrix => acc2.data.length = m.data.length) _ _ _ hacc ?_
  intro acc2 pv h2
  simp only [Matrix.set]
  rw [List.length_set]
  exact h2

/-- The write-out loop preserves row lengths and non-negativity when the
written spectra are non-negative. -/
theorem writeRows_shape (B : ℕ) (m : Matrix) (dcs : List (List ℚ))
    (hdcs : ∀ s ∈ dcs, ∀ v ∈ s, 0 ≤ v)
    (hlen : ∀ row ∈ m.data, row.length = B)
    (hpos : ∀ row ∈ m.data, ∀ x ∈ row, 0 ≤ x) :
    (∀ row ∈ (m.writeRows dcs).data, row.length = B) ∧
    (∀ row ∈ (m.writeRows dcs).data, ∀ x ∈ row, 0 ≤ x) := by
  unfold Matrix.writeRows
  refine foldl_preserves_mem
    (fun acc : Matrix => (∀ row ∈ acc.data, row.length = B) ∧
      (∀ row ∈ acc.data, ∀ x ∈ row, 0 ≤ x)) _ _ _ ⟨hlen, hpos⟩ ?_
  intro acc sv hsv hacc
  have hsvals : ∀ v ∈ sv.2, 0 ≤ v := hdcs sv.2 (mem_of_mem_enum hsv)
  refine foldl_preserves_mem
    (fun acc2 : Matrix => (∀ row ∈ acc2.data, row.length = B) ∧
      (∀ row ∈ acc2.data, ∀ x ∈ row, 0 ≤ x)) _ _ _ hacc ?_
  intro acc2 pv hpv hacc2
  exact matrix_set_preserves B acc2 sv.1 pv.1 pv.2
    (hsvals pv.2 (mem_of_mem_enum hpv)) hacc2.1 hacc2.2

/-- Claim C5: `calc_dc` returns a matrix of exactly one row per sensor ray
and one column per sky bin; the matrix starts as all zeros before assembly;
and, assuming a non-negative initial weight and non-negative material red
reflectances, every cell of the result is non-negative. -/
theorem claim5_matrix_shape_nonneg (rnew : ℕ → ReinhartSky)
    (sampler : ℕ → List Vec3) (rtree : ℕ → ℕ → RandTree) (PI : ℚ)
    (rays : List Ray3D) (scene : Scene) (mf : ℕ)
    (hPI : 0 ≤ PI) (hred : ∀ i, 0 ≤ (scene.materials i).colourRed) :
    (calcDC rnew sampler rtree PI rays scene mf).data.length
      = rays.length ∧
    (∀ row ∈ (calcDC rnew sampler rtree PI rays scene mf).data,
      row.length = (rnew mf).nBins) ∧
    (∀ i j, ((Matrix.new 0 rays.length
        (rnew mf).nBins).data.getD i []).getD j 0 = 0) ∧
    (∀ row ∈ (calcDC rnew sampler rtree PI rays scene mf).data,
      ∀ x ∈ row, 0 ≤ x) := by
  have hdcs : ∀ s ∈ (List.enum rays).map (fun sray =>
      (List.enum (sampler (calcDCFactory rnew mf).nAmbientSamples)).foldl
        (fun spec idir =>
          (calcDCFactory rnew mf).traceRay scene (rtree sray.1 idir.1) []
            { time := 0,
              geometry := { origin := sray.2.origin, direction := idir.2 } }
            0 PI (calcDCFactory rnew mf).nAmbientSamples spec)
        (List.replicate ((rnew mf).nBins) 0)),
      s.length = (rnew mf).nBins ∧ ∀ v ∈ s, 0 ≤ v := by
    intro s hs
    rcases List.mem_map.mp hs with ⟨sray, _, hseq⟩
    rw [← hseq]
    exact sensorSpectrum_ok (calcDCFactory rnew mf) scene
      (rtree sray.1) PI sray.2.origin ((rnew mf).nBins)
      (List.enum (sampler (calcDCFactory rnew mf).nAmbientSamples)) hPI hred
  have hnew_len : ∀ row ∈ (Matrix.new (0 : ℚ) rays.length
      ((rnew mf).nBins)).data, row.length = (rnew mf).nBins := by
    intro row hrow
    rw [List.eq_of_mem_replicate hrow]
    exact List.length_replicate _ _
  have hnew_pos : ∀ row ∈ (Matrix.new (0 : ℚ) rays.length
      ((rnew mf).nBins)).data, ∀ x ∈ row, 0 ≤ x := by
    intro row hrow x hx
    rw [List.eq_of_mem_replicate hrow] at hx
    rw [List.eq_of_mem_replicate hx]
  have hshape := writeRows_shape ((rnew mf).nBins)
    (Matrix.new 0 rays.length ((rnew mf).nBins)) _
    (fun s hs => (hdcs s hs).2) hnew_len hnew_pos
  refine ⟨?_, ?_, ?_, ?_⟩
  · show ((Matrix.new 0 rays.length ((rnew mf).nBins)).writeRows _).data.length = _
    rw [writeRows_data_length]
    exact List.length_replicate _ _
  · exact hshape.1
  · intro i j
    simp only [Matrix.new]
    rw [getD_replicate]
    by_cases hi : i < rays.length
    · rw [if_pos hi, getD_replicate]
      split
      · rfl
      · rfl
    · rw [if_neg hi]
      rfl
  · exact hshape.2

/-- Witness for claim C5 on a one-sensor scene with an empty first-bounce
sampler: the hypotheses hold concretely and the matrix has one row. -/
theorem claim5_matrix_shape_nonneg_witness :
    ((0 : ℚ) ≤ 3 ∧ ∀ i, 0 ≤ (sceneTest.materials i).colourRed) ∧
    (calcDC (fun _ => skyOne) (fun _ => []) (fun _ _ => rtreeZero) 3
      [{ origin := ⟨0, 0, 0⟩, direction := ⟨0, 0, 1⟩ }] sceneTest 1).data.length
      = ([{ origin := ⟨0, 0, 0⟩, direction := ⟨0, 0, 1⟩ }] : List Ray3D).length :=
  ⟨⟨by norm_num, fun i => by norm_num [sceneTest, matTest]⟩,
    (claim5_matrix_shape_nonneg (fun _ => skyOne) (fun _ => [])
      (fun _ _ => rtreeZero) 3
      [{ origin := ⟨0, 0, 0⟩, direction := ⟨0, 0, 1⟩ }] sceneTest 1
      (by norm_num) (fun i => by norm_num [sceneTest, matTest])).1⟩

/-- Claim C7: the factory built by `calc_dc` has `max_depth = 3` and
`n_ambient_samples = 3000`, and `calc_dc` is exactly the assembly whose
first-bounce tracer calls are all made at depth 0 with weight `PI` and
denominator 3000 (= `n_ambient_samples`) on rays from each sensor origin. -/
theorem claim7_calc_dc_constants (rnew : ℕ → ReinhartSky)
    (sampler : ℕ → List Vec3) (rtree : ℕ → ℕ → RandTree) (PI : ℚ)
    (rays : List Ray3D) (scene : Scene) (mf : ℕ) :
    (calcDCFactory rnew mf).maxDepth = 3 ∧
    (calcDCFactory rnew mf).nAmbientSamples = 3000 ∧
    calcDC rnew sampler rtree PI rays scene mf
      = (Matrix.new 0 rays.length ((rnew mf).nBins)).writeRows
          ((List.enum rays).map (fun sray =>
            (List.enum (sampler 3000)).foldl (fun spec idir =>
              (calcDCFactory rnew mf).traceRay scene (rtree sray.1 idir.1)
                []
                { time := 0,
                  geometry := { origin := sray.2.origin,
                                direction := idir.2 } }
                0 PI 3000 spec)
              (List.replicate ((rnew mf).nBins) 0))) :=
  ⟨rfl, rfl, rfl⟩

end SolarModel
